import Mathlib

/-
Verification development for the tiles-shortest-path-planner repository.

The repository ships two CLI entry points, src/bin/TilePlanner.js and
src/bin/Cli.js.  Both are embedded below as pure trace-producing functions
over an explicit environment (fetch results, wkt parsing, file reads), so
that the order of effects (URL validation, location resolution, engine
construction, quadtree loading, path search, result reporting) is visible
in the model.  The routing engine itself (NetworkGraph, Dijkstra, AStar,
NBAStar, Utils, the quadtree index) lives in src/lib, which is not part of
the two shipped source files; those components are modelled from the
design document (spec.md sections 3, 4.3, 4.4) and are marked as such in
their doc comments.
-/

namespace TSP

/-! ## Strings and URL building (src/bin/TilePlanner.js, src/bin/Cli.js) -/

/-- Embedding of the tile-base normalization shared by both entry points:
`tiles.endsWith("/") ? tiles.substring(0, tiles.length - 1) : tiles`
(TilePlanner.js lines 20-22, Cli.js lines 22-24).  Strings are modelled as
`List Char`; `endsWith "/"` is `getLast? = some '/'` and
`substring(0, length - 1)` is `dropLast`. -/
def tilesNormalize (s : List Char) : List Char :=
  if s.getLast? = some '/' then s.dropLast else s

/-- Characters left unescaped by the ECMAScript builtin `encodeURIComponent`:
alphanumerics and `- _ . ! ~ * ' ( )`. -/
def uriUnreserved (c : Char) : Bool :=
  c.isAlphanum || c ∈ ['-', '_', '.', '!', '~', '*', Char.ofNat 39, '(', ')']

/-- UTF-8 bytes of a character (as natural numbers below 256). -/
def utf8Bytes (c : Char) : List Nat :=
  let n := c.toNat
  if n < 128 then [n]
  else if n < 2048 then [192 + n / 64, 128 + n % 64]
  else if n < 65536 then [224 + n / 4096, 128 + (n / 64) % 64, 128 + n % 64]
  else [240 + n / 262144, 128 + (n / 4096) % 64, 128 + (n / 64) % 64, 128 + n % 64]

/-- Upper-case hexadecimal digit, as produced by `encodeURIComponent`. -/
def hexDigit (n : Nat) : Char :=
  if n < 10 then Char.ofNat (48 + n) else Char.ofNat (55 + n)

/-- Percent-encoding of one byte. -/
def pctByte (b : Nat) : List Char :=
  ['%', hexDigit (b / 16), hexDigit (b % 16)]

/-- Embedding of the ECMAScript builtin `encodeURIComponent`, used by both
entry points when building location requests: unreserved characters pass
through, every other character is percent-encoded bytewise in UTF-8. -/
def encodeURIComponent (s : List Char) : List Char :=
  s.foldr (fun c acc => (if uriUnreserved c then [c] else (utf8Bytes c).flatMap pctByte) ++ acc) []

namespace TilePlanner

/-- Location request URL built by TilePlanner.js lines 35-36:
`{tiles}/location?id={encodeURIComponent(id)}`. -/
def locationURL (tiles id : List Char) : List Char :=
  tiles ++ "/location?id=".toList ++ encodeURIComponent id

end TilePlanner

namespace Cli

/-- Location request URL built by Cli.js lines 49-50:
`{tiles}/location/{encodeURIComponent(id)}`. -/
def locationURL (tiles id : List Char) : List Char :=
  tiles ++ "/location/".toList ++ encodeURIComponent id

end Cli

/-- The request shape the specification states for remote location
resolution: `GET {tilesBaseURL}/location?id={id}` with the identifier
percent-encoded (spec.md section 6). -/
def specLocationURL (base id : List Char) : List Char :=
  base ++ "/location?id=".toList ++ encodeURIComponent id

/-! ## Injected cost functions (TilePlanner.js line 44, Cli.js lines 67 and 76) -/

/-- The three distinct closures the entry points inject as the engine's
`distance` option: `Utils.haversineDistance`, `(node) => node.cost`
(TilePlanner.js line 44) and `(node) => node.length` (Cli.js lines 67, 76). -/
inductive CostFn where
  | haversineDistance
  | nodeCost
  | nodeLength
deriving DecidableEq

/-- Argument record for an injected distance closure: the endpoints of the
edge being priced, the target node's intrinsic `cost` field and the stored
`length` field. -/
structure CostArg where
  srcCoord : ℚ × ℚ
  tgtCoord : ℚ × ℚ
  cost : ℚ
  length : ℚ

/-- Semantics of each injected closure, parameterised by the geographic
distance function `geo` (the body of `Utils.haversineDistance`, which lives
in src/lib/utils/Utils.js, outside the shipped sources). -/
def CostFn.eval (geo : ℚ × ℚ → ℚ × ℚ → ℚ) : CostFn → CostArg → ℚ
  | .haversineDistance, a => geo a.srcCoord a.tgtCoord
  | .nodeCost, a => a.cost
  | .nodeLength, a => a.length

namespace TilePlanner

/-- Embedding of TilePlanner.js line 44:
`program.opts().nodeWeighted ? (node) => { return node.cost } : Utils.haversineDistance`. -/
def distance (nodeWeighted : Bool) : CostFn :=
  if nodeWeighted then .nodeCost else .haversineDistance

end TilePlanner

namespace Cli

/-- Embedding of the `distance` option Cli.js passes to both of its engines
(lines 67 and 76): `(node) => { return node.length }`.  Cli.js declares no
`--node-weighted` option. -/
def distance : CostFn := .nodeLength

end Cli

/-! ## Run traces of the two entry points -/

/-- Which engine class a `switch` branch constructs. -/
inductive EngineKind where
  | dijkstra
  | astar
  | nbastar
deriving DecidableEq

/-- Observable milestones of one entry-point execution, in order. -/
inductive Event where
  | urlError
  | resolveLocations
  | engineConstructed (k : EngineKind)
  | loadQuadTree
  | ranFindPath
deriving DecidableEq

/-- Terminal observable result of one entry-point execution.
`locationError` models the specification's LocationResolutionError, a
reported fatal error naming the identifier that failed; the code models
below never produce it. -/
inductive Outcome where
  | exited
  | crashTypeError
  | locationError (id : List Char)
  | printedPath
  | printedNoPath
  | printedList
deriving DecidableEq

/-- Does the outcome surface which identifier failed to resolve, the way
the specification's LocationResolutionError requires? -/
def Outcome.surfacesId : Outcome → Bool
  | .locationError _ => true
  | _ => false

/-- A parsed location-endpoint JSON body `{id, label, wkt}`; the `wkt`
field is optional because an unresolved identifier yields a body without a
usable `wkt` string. -/
structure LocJson where
  id : List Char
  label : List Char
  wkt : Option (List Char)
deriving DecidableEq

/-- A shortest-path result as specified for the engines: the ordered node
sequence from origin to destination plus its total cost
(spec.md section 4.4; weights live in `α`). -/
structure PathResult (α : Type) where
  totalCost : α
  path : List Nat
deriving DecidableEq

namespace TilePlanner

/-- Command-line options of TilePlanner.js (lines 8-17), after commander
applied the defaults: `algorithm` defaults to `"NBA*"`, `nodeWeighted`
to `false`. -/
structure Opts where
  fromId : List Char
  toId : List Char
  zoom : List Char
  tiles : List Char
  threshold : Option Nat := none
  algorithm : List Char := "NBA*".toList
  nodeWeighted : Bool := false
  debug : Bool := false

/-- External collaborators of TilePlanner.js, made explicit: the URL
validity verdict of `Utils.isValidHttpUrl` (Utils.js is not among the
shipped sources), the JSON body the location endpoint returns for a
request URL, the `wellknown` library's `parse`, and the engine's
`findPath` verdict. -/
structure Env where
  urlValid : Bool
  fetchJson : List Char → LocJson
  wktParse : List Char → Option (ℚ × ℚ)
  findPathResult : Option (PathResult ℤ)

/-- Embedding of the `switch (program.opts().algorithm)` of TilePlanner.js
lines 52-81: three recognized names, no default branch, so any other name
leaves `tilePlanner` null (modelled as `none`). -/
def selectEngine (alg : List Char) : Option EngineKind :=
  if alg = "Dijkstra".toList then some .dijkstra
  else if alg = "A*".toList then some .astar
  else if alg = "NBA*".toList then some .nbastar
  else none

/-- Embedding of the result reporting of TilePlanner.js lines 88-100: a
present result prints the path, linestring and metadata; an absent result
prints `"No path was found :("` and the program ends normally. -/
def reportResult (r : Option (PathResult ℤ)) : Outcome :=
  match r with
  | some _ => .printedPath
  | none => .printedNoPath

/-- The coordinate extraction of TilePlanner.js lines 46-47,
`wktParse(X.wkt).coordinates`: `none` is the crashing case. -/
def decodeWkt (env : Env) (j : LocJson) : Option (ℚ × ℚ) :=
  j.wkt.bind env.wktParse

/-- Embedding of `run()` of TilePlanner.js as a trace-producing function.
Order of effects follows the source: normalize the tile base (lines
20-22), validate the raw tiles URL and exit on failure (lines 26-30),
fetch both locations (lines 34-37), decode both `wkt` fields — an absent
or undecodable geometry makes `wktParse(...).coordinates` throw, an
uncaught TypeError (lines 46-47) — select the engine (lines 52-81), crash
with a TypeError on `null.loadTileQuadTree` when the algorithm name was
not recognized (line 84), then run `findPath` and report (lines 87-100). -/
def run (env : Env) (o : Opts) : List Event × Outcome :=
  let tiles := tilesNormalize o.tiles
  if !env.urlValid then ([.urlError], .exited)
  else
    let FROM := env.fetchJson (locationURL tiles o.fromId)
    let TO := env.fetchJson (locationURL tiles o.toId)
    match decodeWkt env FROM, decodeWkt env TO with
    | none, _ => ([.resolveLocations], .crashTypeError)
    | some _, none => ([.resolveLocations], .crashTypeError)
    | some _, some _ =>
      match selectEngine o.algorithm with
      | none => ([.resolveLocations], .crashTypeError)
      | some k =>
        ([.resolveLocations, .engineConstructed k, .loadQuadTree, .ranFindPath],
          reportResult env.findPathResult)

end TilePlanner

namespace Cli

/-- Command-line options of Cli.js (lines 11-19): `algorithm` defaults to
`"NBA*"`, `index` optionally points at a local location index file. -/
structure Opts where
  fromId : List Char
  toId : List Char
  zoom : List Char
  tiles : List Char
  algorithm : List Char := "NBA*".toList
  index : Option (List Char) := none
  debug : Bool := false

/-- External collaborators of Cli.js: URL validation, the location
endpoint, `wellknown`'s `parse`, the local index file
(`none` models a read or JSON-parse failure, which the source catches and
turns into a logged exit), and the engine's `findPath` verdict (Cli.js
line 87 treats the result as an array of nodes). -/
structure Env where
  urlValid : Bool
  fetchJson : List Char → LocJson
  wktParse : List Char → Option (ℚ × ℚ)
  indexFile : List Char → Option (List (List Char × LocJson))
  findPathResult : Option (List Nat)

/-- Embedding of the `switch (program.opts().algorithm)` of Cli.js lines
61-83: only `"Dijkstra"` and `"A*"` construct an engine; every other name,
including the default `"NBA*"`, falls to `default: process.exit()`. -/
def selectEngine (alg : List Char) : Option EngineKind :=
  if alg = "Dijkstra".toList then some .dijkstra
  else if alg = "A*".toList then some .astar
  else none

/-- Embedding of the result handling of Cli.js lines 86-87:
`console.log(path.map(...))`.  When `findPath` yields an absent result the
member access `path.map` throws an uncaught TypeError. -/
def reportResult (r : Option (List Nat)) : Outcome :=
  match r with
  | some _ => .printedList
  | none => .crashTypeError

/-- Resolution of one identifier through the local index branch of Cli.js
lines 36-45: `index.get(id)` yields `undefined` (here `none`) when the
identifier is missing. -/
def indexLookup (entries : List (List Char × LocJson)) (id : List Char) : Option LocJson :=
  (entries.find? (fun e => e.1 = id)).map (·.2)

/-- The location-resolution phase of Cli.js lines 35-54: the outer `none`
models the caught read/parse failure of the local index file (which
exits); otherwise each identifier independently resolves to a JSON object
or to `undefined`. -/
def locate (env : Env) (tiles : List Char) (o : Opts) :
    Option (Option LocJson × Option LocJson) :=
  match o.index with
  | some p =>
    match env.indexFile p with
    | none => none
    | some entries => some (indexLookup entries o.fromId, indexLookup entries o.toId)
  | none =>
    some (some (env.fetchJson (locationURL tiles o.fromId)),
          some (env.fetchJson (locationURL tiles o.toId)))

/-- The coordinate extraction of Cli.js lines 56-57,
`wktParse(X.wkt).coordinates`, on a possibly-`undefined` location:
`none` is the crashing case (member access on `undefined`/`null`). -/
def coordsOf (env : Env) (m : Option LocJson) : Option (ℚ × ℚ) :=
  m.bind (fun j => j.wkt.bind env.wktParse)

/-- Embedding of `run()` of Cli.js as a trace-producing function, following
the source order: normalize the tile base (lines 22-24), validate the raw
tiles URL (lines 29-33), resolve both locations either from the local
index file (lines 36-45; a read failure is caught and exits, a missing
identifier flows through as `undefined`) or from the location endpoint
(lines 46-54), decode both `wkt` fields — `FROM.wkt` on `undefined` or
`wktParse` yielding null makes lines 56-57 throw an uncaught TypeError —
select the engine (lines 61-83, exiting on any name other than
`"Dijkstra"`/`"A*"`), then run `findPath` and print (lines 86-87). -/
def run (env : Env) (o : Opts) : List Event × Outcome :=
  let tiles := tilesNormalize o.tiles
  if !env.urlValid then ([.urlError], .exited)
  else
    match locate env tiles o with
    | none => ([.resolveLocations], .exited)
    | some (mFROM, mTO) =>
      match coordsOf env mFROM, coordsOf env mTO with
      | none, _ => ([.resolveLocations], .crashTypeError)
      | some _, none => ([.resolveLocations], .crashTypeError)
      | some _, some _ =>
        match selectEngine o.algorithm with
        | none => ([.resolveLocations], .exited)
        | some k =>
          ([.resolveLocations, .engineConstructed k, .ranFindPath],
            reportResult env.findPathResult)

end Cli

/-! ## SpatialQuadTree (modelled from the spec) -/

/-- A geographic bounding box with rational corners. -/
structure BBox where
  minLon : ℚ
  minLat : ℚ
  maxLon : ℚ
  maxLat : ℚ

/-- Modelled from the spec: the QuadTreeNode of spec.md section 3 — a
bounding box, a node-count estimate and either four children (NW/NE/SW/SE)
or a leaf marker, each carrying the zoom level it was probed at.  The
SpatialQuadTree implementation lives in src/lib, outside the shipped
sources. -/
inductive QuadTree where
  | leaf (b : BBox) (zoom : Nat) (count : Nat)
  | node (b : BBox) (zoom : Nat) (count : Nat)
      (nw : QuadTree) (ne : QuadTree) (sw : QuadTree) (se : QuadTree)

/-- All leaves of a quadtree, each as (box, zoom, node count). -/
def QuadTree.leaves : QuadTree → List (BBox × Nat × Nat)
  | .leaf b z c => [(b, z, c)]
  | .node _ _ _ nw ne sw se => nw.leaves ++ ne.leaves ++ sw.leaves ++ se.leaves

/-- North-west quadrant of a box. -/
def BBox.nw (b : BBox) : BBox :=
  ⟨b.minLon, (b.minLat + b.maxLat) / 2, (b.minLon + b.maxLon) / 2, b.maxLat⟩

/-- North-east quadrant of a box. -/
def BBox.ne (b : BBox) : BBox :=
  ⟨(b.minLon + b.maxLon) / 2, (b.minLat + b.maxLat) / 2, b.maxLon, b.maxLat⟩

/-- South-west quadrant of a box. -/
def BBox.sw (b : BBox) : BBox :=
  ⟨b.minLon, b.minLat, (b.minLon + b.maxLon) / 2, (b.minLat + b.maxLat) / 2⟩

/-- South-east quadrant of a box. -/
def BBox.se (b : BBox) : BBox :=
  ⟨(b.minLon + b.maxLon) / 2, b.minLat, b.maxLon, (b.minLat + b.maxLat) / 2⟩

/-- Modelled from the spec: the recursive build of spec.md section 4.3 —
probe a region's node count (`count`, an external TileSource summary
query), keep it as a leaf when the count is within the threshold or the
zoom ceiling is reached, otherwise subdivide into four quadrants one zoom
level finer.  The first argument is recursion fuel: the number of zoom
levels still available below `maxZoom`. -/
def buildQuadTree (count : BBox → Nat → Nat) (threshold maxZoom : Nat) :
    Nat → BBox → Nat → QuadTree
  | 0, b, z => .leaf b z (count b z)
  | fuel + 1, b, z =>
    if count b z ≤ threshold ∨ maxZoom ≤ z then .leaf b z (count b z)
    else
      .node b z (count b z)
        (buildQuadTree count threshold maxZoom fuel b.nw (z + 1))
        (buildQuadTree count threshold maxZoom fuel b.ne (z + 1))
        (buildQuadTree count threshold maxZoom fuel b.sw (z + 1))
        (buildQuadTree count threshold maxZoom fuel b.se (z + 1))

/-- Modelled from the spec: `loadTileQuadTree(threshold)` of spec.md
sections 4.3 and 4.4 — build the index from a root bounding box at a root
zoom, subdividing until the threshold is met or the maximum supported zoom
is hit. -/
def loadTileQuadTree (count : BBox → Nat → Nat) (threshold maxZoom : Nat)
    (root : BBox) (rootZoom : Nat) : QuadTree :=
  buildQuadTree count threshold maxZoom (maxZoom - rootZoom) root rootZoom

/-! ## The routing engines (modelled from the spec)

The engines live in src/lib, outside the two shipped sources, so they are
modelled from spec.md section 4.4.  Weights are drawn from a linearly
ordered cancellative additive monoid `α` (the spec's "number ≥ 0"); node
identifiers are naturals.  The search keeps, per node, an optional label
`(accumulated cost, path from the origin)` — the decrease-key view of the
spec's priority queue — plus the list of settled (popped) nodes.  The
frontier is the set of labeled unsettled nodes; the pop takes the smallest
priority, breaking ties by node-list order (the spec leaves the tie-break
to the implementer, asking only that it be deterministic). -/

section Engines

variable {α : Type} [LinearOrderedCancelAddCommMonoid α]

/-- A finite directed graph: node identifiers and weighted edges
(spec.md section 3; the NetworkGraph reachable from the tile source). -/
structure SGraph (α : Type) where
  nodes : List Nat
  edges : List (Nat × Nat × α)

/-- Outgoing neighbors of `u` with edge weights. -/
def SGraph.succ (G : SGraph α) (u : Nat) : List (Nat × α) :=
  G.edges.filterMap (fun e => if e.1 = u then some (e.2.1, e.2.2) else none)

/-- Incoming neighbors of `u` with edge weights (reverse edges, used by
the backward NBA* frontier). -/
def SGraph.pred (G : SGraph α) (u : Nat) : List (Nat × α) :=
  G.edges.filterMap (fun e => if e.2.1 = u then some (e.1, e.2.2) else none)

/-- Well-formedness per spec.md section 3: every edge's endpoints exist in
the graph and its weight is nonnegative. -/
def SGraph.WF (G : SGraph α) : Prop :=
  ∀ e ∈ G.edges, e.1 ∈ G.nodes ∧ e.2.1 ∈ G.nodes ∧ 0 ≤ e.2.2

instance (G : SGraph α) : Decidable G.WF :=
  List.decidableBAll _ _

/-- `IsPath G s v p c`: `p` is an edge path from `s` to `v` in `G` whose
weights sum to `c`; paths grow at the target end. -/
inductive IsPath (G : SGraph α) (s : Nat) : Nat → List Nat → α → Prop
  | single : IsPath G s s [s] 0
  | snoc {u : Nat} {p : List Nat} {c : α} {v : Nat} {w : α}
      (hp : IsPath G s u p c) (he : (u, v, w) ∈ G.edges) :
      IsPath G s v (p ++ [v]) (c + w)

/-- A heuristic is consistent when it satisfies the triangle inequality
along every edge (spec.md section 4.4); this is the property geographic
distance enjoys when edge weights are themselves geographic distances. -/
def Consistent (G : SGraph α) (h : Nat → α) : Prop :=
  ∀ e ∈ G.edges, h e.1 ≤ e.2.2 + h e.2.1

instance (G : SGraph α) (h : Nat → α) : Decidable (Consistent G h) :=
  List.decidableBAll _ _

/-- Consistency of a backward heuristic, i.e. consistency on the reverse
graph (spec.md section 4.4, the NBA* backward frontier). -/
def ConsistentRev (G : SGraph α) (h : Nat → α) : Prop :=
  ∀ e ∈ G.edges, h e.2.1 ≤ e.2.2 + h e.1

instance (G : SGraph α) (h : Nat → α) : Decidable (ConsistentRev G h) :=
  List.decidableBAll _ _

/-- Search state: the optional `(cost, path)` label of each node and the
settled list. -/
structure SearchState (α : Type) where
  dist : Nat → Option (α × List Nat)
  settled : List Nat

/-- Initial state: only the origin is labeled, with cost `0` and the
single-node path. -/
def initState (s : Nat) : SearchState α :=
  ⟨fun v => if v = s then some (0, [s]) else none, []⟩

/-- Point update of a label map. -/
def updateLabel (d : Nat → Option (α × List Nat)) (v : Nat) (x : α × List Nat) :
    Nat → Option (α × List Nat) :=
  fun w => if w = v then some x else d w

/-- Relax one outgoing edge `(v, w)` of a node whose label is `(g, p)`:
label `v` with `(g + w, p ++ [v])` when that strictly improves on its
current label (spec.md, "push/update neighbors with strictly smaller
cost"). -/
def relaxOne (g : α) (p : List Nat) (d : Nat → Option (α × List Nat)) (vw : Nat × α) :
    Nat → Option (α × List Nat) :=
  match d vw.1 with
  | none => updateLabel d vw.1 (g + vw.2, p ++ [vw.1])
  | some (gv, _) =>
    if g + vw.2 < gv then updateLabel d vw.1 (g + vw.2, p ++ [vw.1]) else d

/-- Relax every outgoing edge of the freshly settled node. -/
def relaxAll (g : α) (p : List Nat) (es : List (Nat × α)) (d : Nat → Option (α × List Nat)) :
    Nat → Option (α × List Nat) :=
  es.foldl (relaxOne g p) d

/-- Earliest minimum of a list under a measure; the deterministic
extract-min used by every frontier. -/
def minBy {β : Type} (f : β → α) : List β → Option β
  | [] => none
  | x :: xs => some (xs.foldl (fun b y => if f y < f b then y else b) x)

/-- The frontier: labeled, unsettled nodes, with their labels. -/
def frontier (G : SGraph α) (st : SearchState α) : List (Nat × α × List Nat) :=
  G.nodes.filterMap (fun v =>
    if v ∈ st.settled then none else (st.dist v).map (fun gp => (v, gp)))

/-- Pop: the frontier entry of smallest priority `cost + h(node)`. -/
def pickMin (G : SGraph α) (h : Nat → α) (st : SearchState α) :
    Option (Nat × α × List Nat) :=
  minBy (fun c => c.2.1 + h c.1) (frontier G st)

/-- Modelled from the spec: the uniform-cost / heuristic-guided search
loop shared by Dijkstra and A* (spec.md section 4.4): pop the frontier
entry of lowest priority, finish when it is the destination, otherwise
settle it and relax its outgoing edges.  Fuel decreases every iteration;
`genSearch` supplies enough fuel that exhaustion is unreachable. -/
def searchLoop (G : SGraph α) (h : Nat → α) (t : Nat) :
    Nat → SearchState α → Option (PathResult α)
  | 0, _ => none
  | fuel + 1, st =>
    match pickMin G h st with
    | none => none
    | some (u, g, p) =>
      if u = t then some ⟨g, p⟩
      else searchLoop G h t fuel ⟨relaxAll g p (G.succ u) st.dist, u :: st.settled⟩

/-- Best-first search from `s` to `t` with priority `cost + h`. -/
def genSearch (G : SGraph α) (h : Nat → α) (s t : Nat) : Option (PathResult α) :=
  searchLoop G h t (G.nodes.length + 1) (initState s)

namespace Dijkstra

/-- Modelled from the spec: the Dijkstra engine's `findPath` — classic
uniform-cost expansion, i.e. the shared loop with priority equal to the
accumulated cost alone (spec.md section 4.4). -/
def findPath (G : SGraph α) (s t : Nat) : Option (PathResult α) :=
  genSearch G (fun _ => 0) s t

end Dijkstra

namespace AStar

/-- Modelled from the spec: the A* engine's `findPath` — the shared loop
with priority `accumulated cost + heuristic(node)` (spec.md section 4.4). -/
def findPath (G : SGraph α) (heuristic : Nat → α) (s t : Nat) : Option (PathResult α) :=
  genSearch G heuristic s t

end AStar

/-- NBA* state: forward and backward label maps and settled lists, plus
`best`, the cost and node sequence of the best meeting path found so far
(the spec's `bestMeetingCost`).  Backward labels store the path from the
node to the destination in forward order. -/
structure NBAState (α : Type) where
  distF : Nat → Option (α × List Nat)
  distB : Nat → Option (α × List Nat)
  settledF : List Nat
  settledB : List Nat
  best : Option (α × List Nat)

/-- Forward relaxation of one edge inside NBA*: on a strict improvement of
`v`'s forward label, also update `best` whenever `v` already carries a
backward label and the combined cost beats the current best (spec.md
section 4.4, "updated whenever a node is reached by both frontiers with
combined cost lower than the current best"). -/
def nbaRelaxF (g : α) (p : List Nat) (st : NBAState α) (vw : Nat × α) : NBAState α :=
  let v := vw.1
  let g' := g + vw.2
  let improve : Bool :=
    match st.distF v with
    | none => true
    | some (gv, _) => decide (g' < gv)
  if improve then
    let p' := p ++ [v]
    let best' :=
      match st.distB v with
      | none => st.best
      | some (gB, pB) =>
        match st.best with
        | none => some (g' + gB, p' ++ pB.tail)
        | some (μ, π) => if g' + gB < μ then some (g' + gB, p' ++ pB.tail) else some (μ, π)
    { st with distF := updateLabel st.distF v (g', p'), best := best' }
  else st

/-- Backward relaxation of one reverse edge inside NBA*, symmetric to
`nbaRelaxF`. -/
def nbaRelaxB (g : α) (p : List Nat) (st : NBAState α) (vw : Nat × α) : NBAState α :=
  let v := vw.1
  let g' := g + vw.2
  let improve : Bool :=
    match st.distB v with
    | none => true
    | some (gv, _) => decide (g' < gv)
  if improve then
    let p' := v :: p
    let best' :=
      match st.distF v with
      | none => st.best
      | some (gF, pF) =>
        match st.best with
        | none => some (gF + g', pF ++ p)
        | some (μ, π) => if gF + g' < μ then some (gF + g', pF ++ p) else some (μ, π)
    { st with distB := updateLabel st.distB v (g', p'), best := best' }
  else st

/-- One NBA* expansion: the frontier whose top priority is smaller wins
the turn (forward on ties); its top is settled and its edges are relaxed.
This is the alternation policy spec.md section 4.4 suggests ("alternate on
whichever frontier's top priority is smaller"). -/
def nbaStep (G : SGraph α) (hf hb : Nat → α) (st : NBAState α)
    (f b : Nat × α × List Nat) : NBAState α :=
  if f.2.1 + hf f.1 ≤ b.2.1 + hb b.1 then
    let st' := (G.succ f.1).foldl (nbaRelaxF f.2.1 f.2.2) st
    { st' with settledF := f.1 :: st'.settledF }
  else
    let st' := (G.pred b.1).foldl (nbaRelaxB b.2.1 b.2.2) st
    { st' with settledB := b.1 :: st'.settledB }

/-- Modelled from the spec: the NBA* loop (spec.md section 4.4).  Stop as
soon as `forwardTop.priority + backwardTop.priority ≥ bestMeetingCost`
(the spec's termination rule, with an empty frontier's top read as
infinite) and return the best meeting path; if either frontier empties
before any meeting, report no path; otherwise expand per `nbaStep`. -/
def nbaLoop (G : SGraph α) (hf hb : Nat → α) :
    Nat → NBAState α → Option (PathResult α)
  | 0, _ => none
  | fuel + 1, st =>
    match pickMin G hf ⟨st.distF, st.settledF⟩, pickMin G hb ⟨st.distB, st.settledB⟩ with
    | none, _ => st.best.map (fun bp => ⟨bp.1, bp.2⟩)
    | some _, none => st.best.map (fun bp => ⟨bp.1, bp.2⟩)
    | some f, some b =>
      match st.best with
      | some (μ, π) =>
        if μ ≤ (f.2.1 + hf f.1) + (b.2.1 + hb b.1) then some ⟨μ, π⟩
        else nbaLoop G hf hb fuel (nbaStep G hf hb st f b)
      | none => nbaLoop G hf hb fuel (nbaStep G hf hb st f b)

namespace NBAStar

/-- Modelled from the spec: the NBA* engine's `findPath` — two
simultaneous searches meeting in the middle, with the forward heuristic
estimating distance to the destination and the backward heuristic distance
to the origin (spec.md section 4.4). -/
def findPath (G : SGraph α) (hf hb : Nat → α) (s t : Nat) : Option (PathResult α) :=
  nbaLoop G hf hb (2 * G.nodes.length + 1)
    ⟨(initState s).dist, (initState t).dist, [], [], none⟩

end NBAStar

/-- The engine dispatch mirroring the `switch` of TilePlanner.js lines
52-81: the same `findPath` query routed to the selected engine class. -/
def runEngine (k : EngineKind) (G : SGraph α) (hf hb : Nat → α) (s t : Nat) :
    Option (PathResult α) :=
  match k with
  | .dijkstra => Dijkstra.findPath G s t
  | .astar => AStar.findPath G hf s t
  | .nbastar => NBAStar.findPath G hf hb s t

/-- The invariant `searchLoop` maintains: labels are costs of real paths
from the origin, the origin stays labeled at cost `0` or better, settled
nodes are distinct graph nodes carrying optimal labels whose outgoing
edges are fully relaxed, and the destination is never settled (the loop
returns when popping it). -/
structure Inv (G : SGraph α) (h : Nat → α) (s t : Nat) (st : SearchState α) : Prop where
  sound : ∀ v g p, st.dist v = some (g, p) → IsPath G s v p g
  start : ∃ g p, st.dist s = some (g, p) ∧ g ≤ 0
  settledNodes : ∀ u ∈ st.settled, u ∈ G.nodes
  settledNodup : st.settled.Nodup
  settledOpt : ∀ u ∈ st.settled, ∃ g p, st.dist u = some (g, p) ∧
    ∀ q c, IsPath G s u q c → g ≤ c
  closure : ∀ u ∈ st.settled, ∀ v w, (u, v, w) ∈ G.edges →
    ∀ g p, st.dist u = some (g, p) → ∃ gv pv, st.dist v = some (gv, pv) ∧ gv ≤ g + w
  tUnsettled : t ∉ st.settled

end Engines

/-! ## A concrete geographic instance

Six nodes: an origin `0`, a destination `5`, a three-stop corridor
`1, 2, 3` between them, and a bypass node `4` adjacent to both endpoints.
Every road is two directed edges.  Weights are geographic distances (in
integer units) and the two heuristics are the geographic distances to the
destination and to the origin, so both are admissible and consistent. -/

/-- Edge list of the concrete instance. -/
def exEdges : List (Nat × Nat × ℤ) :=
  [(0, 1, 5), (1, 0, 5), (1, 2, 10), (2, 1, 10), (2, 3, 12), (3, 2, 12),
   (3, 5, 15), (5, 3, 15), (0, 4, 25), (4, 0, 25), (4, 5, 25), (5, 4, 25)]

/-- The concrete graph. -/
def exGraph : SGraph ℤ := ⟨[0, 1, 2, 3, 4, 5], exEdges⟩

/-- Geographic distance from each node to the destination `5`: the forward
heuristic. -/
def exHF : Nat → ℤ := fun v => [30, 26, 17, 10, 25, 0].getD v 0

/-- Geographic distance from each node to the origin `0`: the backward
heuristic. -/
def exHB : Nat → ℤ := fun v => [0, 5, 14, 20, 25, 30].getD v 0

/-! ## Concrete entry-point scenarios -/

/-- A location JSON body with a decodable geometry. -/
def okLoc : LocJson := ⟨"A".toList, "Station A".toList, some "POINT(4 51)".toList⟩

/-- TilePlanner environment in which every collaborator succeeds. -/
def tpEnvOk : TilePlanner.Env :=
  ⟨true, fun _ => okLoc, fun _ => some (4, 51), some ⟨42, [0, 1, 2, 3, 5]⟩⟩

/-- TilePlanner environment whose tiles URL fails validation. -/
def tpEnvBadUrl : TilePlanner.Env :=
  ⟨false, fun _ => okLoc, fun _ => some (4, 51), some ⟨42, [0, 1, 2, 3, 5]⟩⟩

/-- TilePlanner environment whose location endpoint returns bodies without
a decodable geometry (unresolvable identifiers). -/
def tpEnvNoWkt : TilePlanner.Env :=
  ⟨true, fun _ => ⟨"A".toList, "A".toList, none⟩, fun _ => some (4, 51),
    some ⟨42, [0, 1, 2, 3, 5]⟩⟩

/-- TilePlanner options requesting an unrecognized algorithm name. -/
def tpOptsFoo : TilePlanner.Opts :=
  { fromId := "A".toList, toId := "B".toList, zoom := "12".toList,
    tiles := "http://host/tiles".toList, algorithm := "Foo".toList }

/-- TilePlanner options with all defaults (algorithm "NBA*"). -/
def tpOptsDefault : TilePlanner.Opts :=
  { fromId := "A".toList, toId := "B".toList, zoom := "12".toList,
    tiles := "http://host/tiles".toList }

/-- Cli environment with remote resolution succeeding and `findPath`
reporting no path. -/
def cliEnvNoPath : Cli.Env :=
  ⟨true, fun _ => okLoc, fun _ => some (4, 51), fun _ => none, none⟩

/-- Cli environment in which every collaborator succeeds. -/
def cliEnvOk : Cli.Env :=
  ⟨true, fun _ => okLoc, fun _ => some (4, 51), fun _ => none, some [0, 5]⟩

/-- Cli environment whose local index file parses but contains only the
identifier `B`. -/
def cliEnvIndexMissing : Cli.Env :=
  ⟨true, fun _ => okLoc, fun _ => some (4, 51),
    fun _ => some [("B".toList, okLoc)], some [0, 5]⟩

/-- Cli options choosing the Dijkstra engine, resolving remotely. -/
def cliOptsDijkstra : Cli.Opts :=
  { fromId := "A".toList, toId := "B".toList, zoom := "12".toList,
    tiles := "http://host/tiles".toList, algorithm := "Dijkstra".toList }

/-- Cli options choosing the Dijkstra engine, resolving through a local
index file. -/
def cliOptsIndexed : Cli.Opts :=
  { fromId := "A".toList, toId := "B".toList, zoom := "12".toList,
    tiles := "http://host/tiles".toList, algorithm := "Dijkstra".toList,
    index := some "./index.json".toList }

/-- Cli options with all defaults, in particular the default algorithm
value "NBA*". -/
def cliOptsDefault : Cli.Opts :=
  { fromId := "A".toList, toId := "B".toList, zoom := "12".toList,
    tiles := "http://host/tiles".toList }

/-- A constant tile node-count probe for quadtree scenarios. -/
def exCount : BBox → Nat → Nat := fun _ _ => 5

/-- A root bounding box for quadtree scenarios. -/
def exBox : BBox := ⟨0, 0, 1, 1⟩

/-! ## Lemmas about paths, minima and relaxation -/

section EngineLemmas

variable {α : Type} [LinearOrderedCancelAddCommMonoid α]

/-- Path costs are nonnegative in a well-formed graph. -/
theorem IsPath.cost_nonneg {G : SGraph α} {s v : Nat} {p : List Nat} {c : α}
    (hwf : G.WF) (hp : IsPath G s v p c) : 0 ≤ c := by
  induction hp with
  | single => exact le_refl 0
  | snoc hp he ih => exact add_nonneg ih (hwf _ he).2.2

/-- Telescoped consistency: a consistent heuristic changes by at most the
cost of any path between two nodes. -/
theorem IsPath.heuristic_le {G : SGraph α} {h : Nat → α} {x y : Nat} {p : List Nat} {c : α}
    (hcons : Consistent G h) (hp : IsPath G x y p c) : h x ≤ c + h y := by
  induction hp with
  | single => rw [zero_add]
  | snoc hp he ih =>
    refine le_trans ih ?_
    rw [add_assoc]
    exact add_le_add_left (hcons _ he) _

/-- The running minimum of a fold is among the inputs. -/
theorem foldlMin_mem {β : Type} (f : β → α) (xs : List β) (x : β) :
    xs.foldl (fun b y => if f y < f b then y else b) x ∈ x :: xs := by
  induction xs generalizing x with
  | nil => simp
  | cons y ys ih =>
    simp only [List.foldl_cons]
    rcases List.mem_cons.mp (ih (if f y < f x then y else x)) with h1 | h1
    · rw [h1]
      split
      · exact List.mem_cons_of_mem _ (List.mem_cons_self _ _)
      · exact List.mem_cons_self _ _
    · exact List.mem_cons_of_mem _ (List.mem_cons_of_mem _ h1)

/-- The running minimum of a fold is below every input. -/
theorem foldlMin_le {β : Type} (f : β → α) (xs : List β) (x : β) :
    ∀ z ∈ x :: xs, f (xs.foldl (fun b y => if f y < f b then y else b) x) ≤ f z := by
  induction xs generalizing x with
  | nil =>
    intro z hz
    rw [List.mem_singleton.mp hz]
    exact le_rfl
  | cons y ys ih =>
    intro z hz
    simp only [List.foldl_cons]
    have hx'x : f (if f y < f x then y else x) ≤ f x := by
      split
      · exact le_of_lt ‹_›
      · exact le_rfl
    have hx'y : f (if f y < f x then y else x) ≤ f y := by
      split
      · exact le_rfl
      · exact le_of_not_lt ‹_›
    have hmin := ih (if f y < f x then y else x) _ (List.mem_cons_self _ _)
    rcases List.mem_cons.mp hz with rfl | hz'
    · exact le_trans hmin hx'x
    · rcases List.mem_cons.mp hz' with rfl | hz''
      · exact le_trans hmin hx'y
      · exact ih _ z (List.mem_cons_of_mem _ hz'')

/-- `minBy` returns `none` exactly on the empty list. -/
theorem minBy_eq_none {β : Type} (f : β → α) (l : List β) :
    minBy f l = none ↔ l = [] := by
  cases l <;> simp [minBy]

/-- `minBy` returns a member of the list. -/
theorem minBy_mem {β : Type} {f : β → α} {l : List β} {x : β}
    (h : minBy f l = some x) : x ∈ l := by
  cases l with
  | nil => simp [minBy] at h
  | cons a as =>
    simp only [minBy, Option.some.injEq] at h
    rw [← h]
    exact foldlMin_mem f as a

/-- `minBy` returns a minimizer. -/
theorem minBy_le {β : Type} {f : β → α} {l : List β} {x : β}
    (h : minBy f l = some x) : ∀ y ∈ l, f x ≤ f y := by
  cases l with
  | nil => simp [minBy] at h
  | cons a as =>
    simp only [minBy, Option.some.injEq] at h
    rw [← h]
    exact foldlMin_le f as a

/-- Frontier membership characterization. -/
theorem mem_frontier {G : SGraph α} {st : SearchState α} {v : Nat} {g : α} {p : List Nat} :
    (v, g, p) ∈ frontier G st ↔ v ∈ G.nodes ∧ v ∉ st.settled ∧ st.dist v = some (g, p) := by
  simp only [frontier, List.mem_filterMap]
  constructor
  · rintro ⟨a, ha, hfa⟩
    by_cases hmem : a ∈ st.settled
    · simp [hmem] at hfa
    · simp only [hmem, if_neg, if_false, Option.map_eq_some'] at hfa
      obtain ⟨gp, hgp, heq⟩ := hfa
      obtain ⟨rfl, rfl⟩ := Prod.mk.injEq .. ▸ heq
      exact ⟨ha, hmem, hgp⟩
  · rintro ⟨hv, hns, hd⟩
    exact ⟨v, hv, by simp [hns, hd]⟩

/-- Successor-list membership is edge membership. -/
theorem mem_succ {G : SGraph α} {u v : Nat} {w : α} :
    (v, w) ∈ G.succ u ↔ (u, v, w) ∈ G.edges := by
  simp only [SGraph.succ, List.mem_filterMap]
  constructor
  · rintro ⟨⟨a, b, c⟩, he, hfe⟩
    dsimp only at hfe
    split at hfe
    · obtain ⟨rfl, rfl⟩ := Prod.mk.injEq .. ▸ Option.some.injEq .. ▸ hfe
      exact (by assumption : a = u) ▸ he
    · exact absurd hfe (by simp)
  · intro h
    exact ⟨(u, v, w), h, by simp⟩

/-- `relaxOne` changes no label but its target's. -/
theorem relaxOne_untouched {g : α} {p : List Nat} {d : Nat → Option (α × List Nat)}
    {vw : Nat × α} {v : Nat} (hv : v ≠ vw.1) :
    relaxOne g p d vw v = d v := by
  unfold relaxOne
  cases hd : d vw.1 with
  | none => simp [updateLabel, hv]
  | some gp =>
    obtain ⟨gv, pv⟩ := gp
    dsimp only
    split
    · simp [updateLabel, hv]
    · rfl

/-- After `relaxOne`, the target carries a label bounded by `g + w`. -/
theorem relaxOne_target {g : α} {p : List Nat} {d : Nat → Option (α × List Nat)}
    (vw : Nat × α) :
    ∃ gv pv, relaxOne g p d vw vw.1 = some (gv, pv) ∧ gv ≤ g + vw.2 := by
  unfold relaxOne
  cases hd : d vw.1 with
  | none => exact ⟨g + vw.2, p ++ [vw.1], by simp [updateLabel], le_rfl⟩
  | some gp =>
    obtain ⟨gv, pv⟩ := gp
    dsimp only
    by_cases hlt : g + vw.2 < gv
    · rw [if_pos hlt]
      exact ⟨g + vw.2, p ++ [vw.1], by simp [updateLabel], le_rfl⟩
    · rw [if_neg hlt]
      exact ⟨gv, pv, hd, le_of_not_lt hlt⟩

/-- Labels only improve under `relaxOne`. -/
theorem relaxOne_mono {g : α} {p : List Nat} {d : Nat → Option (α × List Nat)}
    {e : Nat × α} {v : Nat} {gv : α} {pv : List Nat} (hv : d v = some (gv, pv)) :
    ∃ gv' pv', relaxOne g p d e v = some (gv', pv') ∧ gv' ≤ gv := by
  by_cases hveq : v = e.1
  · subst hveq
    unfold relaxOne
    rw [hv]
    dsimp only
    by_cases hlt : g + e.2 < gv
    · rw [if_pos hlt]
      exact ⟨g + e.2, p ++ [e.1], by simp [updateLabel], le_of_lt hlt⟩
    · rw [if_neg hlt]
      exact ⟨gv, pv, hv, le_rfl⟩
  · exact ⟨gv, pv, by rw [relaxOne_untouched hveq, hv], le_rfl⟩

/-- Soundness of labels is preserved by `relaxOne`. -/
theorem relaxOne_sound {G : SGraph α} {s u : Nat} {g : α} {p : List Nat}
    {d : Nat → Option (α × List Nat)} {vw : Nat × α}
    (hsound : ∀ v gv pv, d v = some (gv, pv) → IsPath G s v pv gv)
    (hu : IsPath G s u p g) (hedge : (u, vw.1, vw.2) ∈ G.edges) :
    ∀ v gv pv, relaxOne g p d vw v = some (gv, pv) → IsPath G s v pv gv := by
  intro v gv pv hv
  by_cases hveq : v = vw.1
  · subst hveq
    unfold relaxOne at hv
    cases hd : d vw.1 with
    | none =>
      rw [hd] at hv
      simp only [updateLabel, eq_self_iff_true, if_true, Option.some.injEq, Prod.mk.injEq] at hv
      rw [← hv.1, ← hv.2]
      exact IsPath.snoc hu hedge
    | some gp =>
      obtain ⟨gv0, pv0⟩ := gp
      rw [hd] at hv
      dsimp only at hv
      split at hv
      · simp only [updateLabel, eq_self_iff_true, if_true, Option.some.injEq, Prod.mk.injEq] at hv
        rw [← hv.1, ← hv.2]
        exact IsPath.snoc hu hedge
      · exact hsound _ _ _ hv
  · rw [relaxOne_untouched hveq] at hv
    exact hsound _ _ _ hv

/-- A label that is already optimal is never changed by `relaxOne` from a
sound popped node. -/
theorem relaxOne_settled_fixed {G : SGraph α} {s u : Nat} {g : α} {p : List Nat}
    {d : Nat → Option (α × List Nat)} {vw : Nat × α} {S : List Nat}
    (hopt : ∀ v ∈ S, ∃ gv pv, d v = some (gv, pv) ∧ ∀ q c, IsPath G s v q c → gv ≤ c)
    (hu : IsPath G s u p g) (hedge : (u, vw.1, vw.2) ∈ G.edges) :
    ∀ v ∈ S, relaxOne g p d vw v = d v := by
  intro v hvS
  by_cases hveq : v = vw.1
  · subst hveq
    obtain ⟨gv, pv, hd, hoptv⟩ := hopt _ hvS
    have hle : gv ≤ g + vw.2 := hoptv _ _ (IsPath.snoc hu hedge)
    unfold relaxOne
    rw [hd]
    dsimp only
    rw [if_neg (not_lt.mpr hle)]
    exact hd
  · exact relaxOne_untouched hveq

/-- Labels only improve under `relaxAll`. -/
theorem relaxAll_mono {g : α} {p : List Nat} {l : List (Nat × α)}
    {d : Nat → Option (α × List Nat)} {v : Nat} {gv : α} {pv : List Nat}
    (hv : d v = some (gv, pv)) :
    ∃ gv' pv', relaxAll g p l d v = some (gv', pv') ∧ gv' ≤ gv := by
  induction l generalizing d gv pv with
  | nil => exact ⟨gv, pv, hv, le_rfl⟩
  | cons e es ih =>
    obtain ⟨g1, p1, h1, hle1⟩ := relaxOne_mono (e := e) (g := g) (p := p) hv
    obtain ⟨g2, p2, h2, hle2⟩ := ih h1
    exact ⟨g2, p2, h2, le_trans hle2 hle1⟩

/-- Every relaxed edge target ends labeled, bounded by `g + w`. -/
theorem relaxAll_target {g : α} {p : List Nat} {es : List (Nat × α)}
    {d : Nat → Option (α × List Nat)} :
    ∀ vw ∈ es, ∃ gv pv, relaxAll g p es d vw.1 = some (gv, pv) ∧ gv ≤ g + vw.2 := by
  induction es generalizing d with
  | nil => intro vw h; exact absurd h (List.not_mem_nil vw)
  | cons e es ih =>
    intro vw hvw
    rcases List.mem_cons.mp hvw with rfl | h'
    · obtain ⟨g1, p1, h1, hle1⟩ := relaxOne_target (g := g) (p := p) (d := d) vw
      obtain ⟨g2, p2, h2, hle2⟩ := relaxAll_mono (l := es) h1
      exact ⟨g2, p2, h2, le_trans hle2 hle1⟩
    · exact ih (d := relaxOne g p d e) vw h'

/-- Soundness of labels is preserved by `relaxAll`. -/
theorem relaxAll_sound {G : SGraph α} {s u : Nat} {g : α} {p : List Nat}
    {es : List (Nat × α)} {d : Nat → Option (α × List Nat)}
    (hsound : ∀ v gv pv, d v = some (gv, pv) → IsPath G s v pv gv)
    (hu : IsPath G s u p g) (hes : ∀ vw ∈ es, (u, vw.1, vw.2) ∈ G.edges) :
    ∀ v gv pv, relaxAll g p es d v = some (gv, pv) → IsPath G s v pv gv := by
  induction es generalizing d with
  | nil => exact hsound
  | cons e es ih =>
    exact ih (relaxOne_sound hsound hu (hes e (List.mem_cons_self ..)))
      (fun vw h => hes vw (List.mem_cons_of_mem _ h))

/-- Labels that are already optimal survive `relaxAll` untouched. -/
theorem relaxAll_settled_fixed {G : SGraph α} {s u : Nat} {g : α} {p : List Nat}
    {es : List (Nat × α)} {d : Nat → Option (α × List Nat)} {S : List Nat}
    (hopt : ∀ v ∈ S, ∃ gv pv, d v = some (gv, pv) ∧ ∀ q c, IsPath G s v q c → gv ≤ c)
    (hu : IsPath G s u p g) (hes : ∀ vw ∈ es, (u, vw.1, vw.2) ∈ G.edges) :
    ∀ v ∈ S, relaxAll g p es d v = d v := by
  induction es generalizing d with
  | nil => intro v _; rfl
  | cons e es ih =>
    intro v hvS
    have hfix := relaxOne_settled_fixed hopt hu (hes e (List.mem_cons_self ..))
    have hopt' : ∀ v' ∈ S, ∃ gv pv, relaxOne g p d e v' = some (gv, pv) ∧
        ∀ q c, IsPath G s v' q c → gv ≤ c := by
      intro v' hv'
      obtain ⟨gv, pv, hd, ho⟩ := hopt v' hv'
      exact ⟨gv, pv, (hfix v' hv').trans hd, ho⟩
    have := ih hopt' (fun vw h => hes vw (List.mem_cons_of_mem _ h)) v hvS
    exact this.trans (hfix v hvS)

/-- The initial state satisfies the invariant. -/
theorem inv_init {G : SGraph α} {h : Nat → α} {s t : Nat} : Inv G h s t (initState s) := by
  constructor
  · intro v g p hv
    simp only [initState] at hv
    split at hv
    · rename_i hvs
      simp only [Option.some.injEq, Prod.mk.injEq] at hv
      rw [hvs, ← hv.1, ← hv.2]
      exact IsPath.single
    · simp at hv
  · exact ⟨0, [s], by simp [initState], le_rfl⟩
  · intro u hu
    exact absurd hu (List.not_mem_nil u)
  · exact List.nodup_nil
  · intro u hu
    exact absurd hu (List.not_mem_nil u)
  · intro u hu
    exact absurd hu (List.not_mem_nil u)
  · exact List.not_mem_nil t

/-- Every path from the origin to an unsettled node crosses the frontier:
a labeled unsettled graph node `x` lies on it, and its label plus the
heuristic-weakened remaining cost stays within the path's cost. -/
theorem inv_cross {G : SGraph α} {h : Nat → α} {s t : Nat} {st : SearchState α}
    (hwf : G.WF) (hcons : Consistent G h) (hs : s ∈ G.nodes)
    (inv : Inv G h s t st) {y : Nat} {q : List Nat} {c : α}
    (hp : IsPath G s y q c) :
    y ∉ st.settled →
    ∃ x gx px c₂, x ∈ G.nodes ∧ x ∉ st.settled ∧ st.dist x = some (gx, px) ∧
      h x ≤ c₂ + h y ∧ gx + c₂ ≤ c := by
  induction hp with
  | single =>
    intro hy
    obtain ⟨g0, p0, hd0, hg0⟩ := inv.start
    refine ⟨s, g0, p0, 0, hs, hy, hd0, by rw [zero_add], ?_⟩
    rw [add_zero]
    exact hg0
  | @snoc u p' c' v w hp' he ih =>
    intro hv
    by_cases hu : u ∈ st.settled
    · obtain ⟨gu, pu, hdu, hoptu⟩ := inv.settledOpt u hu
      obtain ⟨gv, pv, hdv, hle⟩ := inv.closure u hu v w he gu pu hdu
      refine ⟨v, gv, pv, 0, (hwf _ he).2.1, hv, hdv, by rw [zero_add], ?_⟩
      rw [add_zero]
      calc gv ≤ gu + w := hle
        _ ≤ c' + w := add_le_add_right (hoptu _ _ hp') w
    · obtain ⟨x, gx, px, c₂, hxn, hxs, hdx, hhx, hgx⟩ := ih hu
      refine ⟨x, gx, px, c₂ + w, hxn, hxs, hdx, ?_, ?_⟩
      · calc h x ≤ c₂ + h u := hhx
          _ ≤ c₂ + (w + h v) := add_le_add_left (hcons _ he) _
          _ = c₂ + w + h v := (add_assoc ..).symm
      · calc gx + (c₂ + w) = gx + c₂ + w := (add_assoc ..).symm
          _ ≤ c' + w := add_le_add_right hgx w

/-- The popped frontier minimum carries an optimal label: consistency of
the heuristic makes the first pop of any node final. -/
theorem pop_opt {G : SGraph α} {h : Nat → α} {s t : Nat} {st : SearchState α}
    (hwf : G.WF) (hcons : Consistent G h) (hs : s ∈ G.nodes) (inv : Inv G h s t st)
    {u : Nat} {g : α} {p : List Nat}
    (hpick : pickMin G h st = some (u, g, p)) :
    ∀ q c, IsPath G s u q c → g ≤ c := by
  intro q c hq
  obtain ⟨hun, hus, hdu⟩ := mem_frontier.mp (minBy_mem hpick)
  obtain ⟨x, gx, px, c₂, hxn, hxs, hdx, hhx, hgx⟩ := inv_cross hwf hcons hs inv hq hus
  have hxf : (x, gx, px) ∈ frontier G st := mem_frontier.mpr ⟨hxn, hxs, hdx⟩
  have hmin := minBy_le hpick _ hxf
  have h1 : g + h u ≤ c + h u := by
    calc g + h u ≤ gx + h x := hmin
      _ ≤ gx + (c₂ + h u) := add_le_add_left hhx gx
      _ = gx + c₂ + h u := (add_assoc ..).symm
      _ ≤ c + h u := add_le_add_right hgx _
  exact le_of_add_le_add_right h1

/-- When the frontier is empty the destination is unreachable. -/
theorem pickMin_none_no_path {G : SGraph α} {h : Nat → α} {s t : Nat} {st : SearchState α}
    (hwf : G.WF) (hcons : Consistent G h) (hs : s ∈ G.nodes) (inv : Inv G h s t st)
    (hnone : pickMin G h st = none) : ∀ q c, ¬ IsPath G s t q c := by
  intro q c hq
  have hfr : frontier G st = [] := (minBy_eq_none _ _).mp hnone
  obtain ⟨x, gx, px, c₂, hxn, hxs, hdx, _, _⟩ := inv_cross hwf hcons hs inv hq inv.tUnsettled
  have hmem : (x, gx, px) ∈ frontier G st := mem_frontier.mpr ⟨hxn, hxs, hdx⟩
  rw [hfr] at hmem
  exact absurd hmem (List.not_mem_nil _)

/-- Settling the popped minimum and relaxing its edges preserves the
invariant. -/
theorem step_inv {G : SGraph α} {h : Nat → α} {s t : Nat} {st : SearchState α}
    {u : Nat} {g : α} {p : List Nat}
    (hwf : G.WF) (hcons : Consistent G h) (hs : s ∈ G.nodes) (inv : Inv G h s t st)
    (hpick : pickMin G h st = some (u, g, p)) (hne : u ≠ t) :
    Inv G h s t ⟨relaxAll g p (G.succ u) st.dist, u :: st.settled⟩ := by
  obtain ⟨hun, hus, hdu⟩ := mem_frontier.mp (minBy_mem hpick)
  have hup : IsPath G s u p g := inv.sound u g p hdu
  have hes : ∀ vw ∈ G.succ u, (u, vw.1, vw.2) ∈ G.edges := fun vw hvw => mem_succ.mp hvw
  have hpop : ∀ q c, IsPath G s u q c → g ≤ c := pop_opt hwf hcons hs inv hpick
  have hoptS : ∀ v ∈ u :: st.settled, ∃ gv pv, st.dist v = some (gv, pv) ∧
      ∀ q c, IsPath G s v q c → gv ≤ c := by
    intro v hv
    rcases List.mem_cons.mp hv with rfl | hv'
    · exact ⟨g, p, hdu, hpop⟩
    · exact inv.settledOpt v hv'
  have hfix : ∀ v ∈ u :: st.settled, relaxAll g p (G.succ u) st.dist v = st.dist v :=
    relaxAll_settled_fixed hoptS hup hes
  constructor
  · exact relaxAll_sound inv.sound hup hes
  · obtain ⟨g0, p0, hd0, hg0⟩ := inv.start
    obtain ⟨g1, p1, hd1, hle⟩ := relaxAll_mono (l := G.succ u) (g := g) (p := p) hd0
    exact ⟨g1, p1, hd1, hle.trans hg0⟩
  · intro v hv
    rcases List.mem_cons.mp hv with rfl | hv'
    · exact hun
    · exact inv.settledNodes v hv'
  · exact List.nodup_cons.mpr ⟨hus, inv.settledNodup⟩
  · intro v hv
    obtain ⟨gv, pv, hdv, ho⟩ := hoptS v hv
    exact ⟨gv, pv, (hfix v hv).trans hdv, ho⟩
  · intro u' hu' v w hedge g' p' hdu'
    dsimp only at hdu' ⊢
    have hfixu' := hfix u' hu'
    rcases List.mem_cons.mp hu' with rfl | hu''
    · rw [hfixu', hdu] at hdu'
      simp only [Option.some.injEq, Prod.mk.injEq] at hdu'
      obtain ⟨rfl, rfl⟩ := hdu'
      exact relaxAll_target (v, w) (mem_succ.mpr hedge)
    · rw [hfixu'] at hdu'
      obtain ⟨gv0, pv0, hdv0, hle0⟩ := inv.closure u' hu'' v w hedge g' p' hdu'
      obtain ⟨gv1, pv1, hdv1, hle1⟩ := relaxAll_mono hdv0
      exact ⟨gv1, pv1, hdv1, hle1.trans hle0⟩
  · intro hmem
    rcases List.mem_cons.mp hmem with ht | ht
    · exact hne ht.symm
    · exact inv.tUnsettled ht

/-- Unfolding equation of `searchLoop` at positive fuel. -/
theorem searchLoop_succ (G : SGraph α) (h : Nat → α) (t fuel : Nat) (st : SearchState α) :
    searchLoop G h t (fuel + 1) st =
      match pickMin G h st with
      | none => none
      | some (u, g, p) =>
        if u = t then some ⟨g, p⟩
        else searchLoop G h t fuel ⟨relaxAll g p (G.succ u) st.dist, u :: st.settled⟩ := rfl

/-- Fuel-generalized correctness of the shared search loop: a returned
result is an optimal path from origin to destination, and `none` means no
path exists. -/
theorem searchLoop_correct {G : SGraph α} {h : Nat → α} {s t : Nat}
    (hwf : G.WF) (hcons : Consistent G h) (hs : s ∈ G.nodes) :
    ∀ (fuel : Nat) (st : SearchState α), Inv G h s t st →
      G.nodes.length + 1 ≤ fuel + st.settled.length →
      (∀ r, searchLoop G h t fuel st = some r →
        IsPath G s t r.path r.totalCost ∧ ∀ q c, IsPath G s t q c → r.totalCost ≤ c) ∧
      (searchLoop G h t fuel st = none → ∀ q c, ¬ IsPath G s t q c) := by
  intro fuel
  induction fuel with
  | zero =>
    intro st inv hlen
    exfalso
    have hsub : st.settled ⊆ G.nodes := inv.settledNodes
    have := (List.subperm_of_subset inv.settledNodup hsub).length_le
    omega
  | succ fuel ih =>
    intro st inv hlen
    cases hpick : pickMin G h st with
    | none =>
      constructor
      · intro r hr
        rw [searchLoop_succ, hpick] at hr
        exact absurd hr (by simp)
      · intro _ q c
        exact pickMin_none_no_path hwf hcons hs inv hpick q c
    | some ugp =>
      obtain ⟨u, g, p⟩ := ugp
      by_cases hut : u = t
      · subst hut
        have hdu := (mem_frontier.mp (minBy_mem hpick)).2.2
        constructor
        · intro r hr
          rw [searchLoop_succ, hpick] at hr
          simp only [if_pos rfl] at hr
          obtain rfl := (Option.some.injEq .. ▸ hr).symm
          exact ⟨inv.sound _ g p hdu, pop_opt hwf hcons hs inv hpick⟩
        · intro hr
          rw [searchLoop_succ, hpick] at hr
          simp at hr
      · have inv' := step_inv hwf hcons hs inv hpick hut
        have hlen' : G.nodes.length + 1 ≤ fuel + (u :: st.settled).length := by
          simp only [List.length_cons]
          omega
        have hrec := ih _ inv' hlen'
        constructor
        · intro r hr
          rw [searchLoop_succ, hpick] at hr
          dsimp only at hr
          rw [if_neg hut] at hr
          exact hrec.1 r hr
        · intro hr
          rw [searchLoop_succ, hpick] at hr
          dsimp only at hr
          rw [if_neg hut] at hr
          exact hrec.2 hr

/-- A result of `genSearch` is a path from origin to destination of
minimal cost. -/
theorem genSearch_some {G : SGraph α} {h : Nat → α} {s t : Nat} {r : PathResult α}
    (hwf : G.WF) (hcons : Consistent G h) (hs : s ∈ G.nodes)
    (hr : genSearch G h s t = some r) :
    IsPath G s t r.path r.totalCost ∧ ∀ q c, IsPath G s t q c → r.totalCost ≤ c :=
  (searchLoop_correct hwf hcons hs _ _ inv_init (by simp [initState])).1 r hr

/-- An absent `genSearch` result means no path exists at all. -/
theorem genSearch_none {G : SGraph α} {h : Nat → α} {s t : Nat}
    (hwf : G.WF) (hcons : Consistent G h) (hs : s ∈ G.nodes)
    (hr : genSearch G h s t = none) :
    ∀ q c, ¬ IsPath G s t q c :=
  (searchLoop_correct hwf hcons hs _ _ inv_init (by simp [initState])).2 hr

/-- The all-zero heuristic (Dijkstra) is consistent on any well-formed
graph. -/
theorem consistent_zero {G : SGraph α} (hwf : G.WF) : Consistent G (fun _ => 0) := by
  intro e he
  simpa using (hwf e he).2.2

/-- Two consistent heuristics drive `genSearch` to the same total cost. -/
theorem genSearch_cost_eq {G : SGraph α} {h₁ h₂ : Nat → α} {s t : Nat}
    (hwf : G.WF) (hs : s ∈ G.nodes) (hc₁ : Consistent G h₁) (hc₂ : Consistent G h₂) :
    (genSearch G h₁ s t).map PathResult.totalCost =
      (genSearch G h₂ s t).map PathResult.totalCost := by
  cases hr₁ : genSearch G h₁ s t with
  | none =>
    cases hr₂ : genSearch G h₂ s t with
    | none => rfl
    | some r₂ =>
      exfalso
      exact genSearch_none hwf hc₁ hs hr₁ _ _ (genSearch_some hwf hc₂ hs hr₂).1
  | some r₁ =>
    cases hr₂ : genSearch G h₂ s t with
    | none =>
      exfalso
      exact genSearch_none hwf hc₂ hs hr₂ _ _ (genSearch_some hwf hc₁ hs hr₁).1
    | some r₂ =>
      obtain ⟨hp₁, hopt₁⟩ := genSearch_some hwf hc₁ hs hr₁
      obtain ⟨hp₂, hopt₂⟩ := genSearch_some hwf hc₂ hs hr₂
      simp only [Option.map_some']
      exact congrArg some (le_antisymm (hopt₁ _ _ hp₂) (hopt₂ _ _ hp₁))

end EngineLemmas

/-- Leaf invariant of the quadtree build, generalized over the remaining
fuel: with `fuel + z = maxZoom`, every leaf is within the threshold or
sits exactly at the maximum zoom. -/
theorem buildQuadTree_leaves (count : BBox → Nat → Nat) (threshold maxZoom : Nat) :
    ∀ (fuel : Nat) (b : BBox) (z : Nat), fuel + z = maxZoom →
      ∀ l ∈ (buildQuadTree count threshold maxZoom fuel b z).leaves,
        l.2.2 ≤ threshold ∨ l.2.1 = maxZoom := by
  intro fuel
  induction fuel with
  | zero =>
    intro b z hz l hl
    simp only [buildQuadTree, QuadTree.leaves, List.mem_singleton] at hl
    subst hl
    right
    show z = maxZoom
    omega
  | succ fuel ih =>
    intro b z hz l hl
    rw [buildQuadTree] at hl
    split at hl
    · rename_i hcond
      simp only [QuadTree.leaves, List.mem_singleton] at hl
      subst hl
      rcases hcond with hc | hzz
      · exact Or.inl hc
      · exact absurd hzz (by omega)
    · simp only [QuadTree.leaves, List.mem_append] at hl
      have hz' : fuel + (z + 1) = maxZoom := by omega
      rcases hl with ((h | h) | h) | h <;> exact ih _ _ hz' _ h

/-! ## The claims -/

/-- C9: every leaf of the SpatialQuadTree produced by
`loadTileQuadTree(threshold)` has node count at most the threshold, unless
that leaf sits at the configured maximum zoom level. -/
theorem c9_quadtree_leaf_invariant (count : BBox → Nat → Nat)
    (threshold maxZoom : Nat) (root : BBox) (rootZoom : Nat)
    (hz : rootZoom ≤ maxZoom) :
    ∀ l ∈ (loadTileQuadTree count threshold maxZoom root rootZoom).leaves,
      l.2.2 ≤ threshold ∨ l.2.1 = maxZoom := by
  intro l hl
  exact buildQuadTree_leaves count threshold maxZoom _ root rootZoom
    (Nat.sub_add_cancel hz) l hl

/-- Witness for C9: a concrete build (constant count 5, threshold 2,
maximum zoom 2, root zoom 0) satisfies the leaf invariant. -/
theorem c9_witness :
    0 ≤ 2 ∧ (∀ l ∈ (loadTileQuadTree exCount 2 2 exBox 0).leaves,
      l.2.2 ≤ 2 ∨ l.2.1 = 2) :=
  ⟨by decide, c9_quadtree_leaf_invariant exCount 2 2 exBox 0 (by decide)⟩

/-- C10: the tile base URL is the `--tiles` input with exactly one
trailing slash removed when the input ends with a slash, and is unchanged
otherwise; an input ending in a double slash keeps one trailing slash. -/
theorem c10_tiles_normalization :
    (∀ t : List Char, tilesNormalize (t ++ ['/']) = t) ∧
    (∀ s : List Char, s.getLast? ≠ some '/' → tilesNormalize s = s) ∧
    tilesNormalize "http://h//".toList = "http://h/".toList := by
  refine ⟨?_, ?_, by decide⟩
  · intro t
    unfold tilesNormalize
    rw [if_pos (List.getLast?_concat t), List.dropLast_concat]
  · intro s hs
    exact if_neg hs

/-- Witness for C10: a slash-free input passes through unchanged. -/
theorem c10_witness :
    "http://h".toList.getLast? ≠ some '/' ∧
    tilesNormalize "http://h".toList = "http://h".toList :=
  ⟨by decide, c10_tiles_normalization.2.1 _ (by decide)⟩

/-- C2 fails as stated: Cli.js injects the stored-length accessor
`(node) => node.length` into its engines, not `Utils.haversineDistance`,
although edge-weighted mode is claimed to inject the geographic distance
in every CLI entry point. -/
theorem c2_counterexample : Cli.distance ≠ CostFn.haversineDistance := by decide

/-- C2 amended: in TilePlanner.js the default (edge-weighted) mode injects
`Utils.haversineDistance` and `--node-weighted` injects the intrinsic-cost
accessor; Cli.js has no node-weighted mode and always injects the stored
`length`-field accessor into both of its engines. -/
theorem c2_amended_distance_injection :
    (∀ geo a, (TilePlanner.distance false).eval geo a = geo a.srcCoord a.tgtCoord) ∧
    (∀ geo a, (TilePlanner.distance true).eval geo a = a.cost) ∧
    (∀ geo a, Cli.distance.eval geo a = a.length) ∧
    TilePlanner.distance false = CostFn.haversineDistance ∧
    TilePlanner.distance true = CostFn.nodeCost ∧
    Cli.distance = CostFn.nodeLength :=
  ⟨fun _ _ => rfl, fun _ _ => rfl, fun _ _ => rfl, rfl, rfl, rfl⟩

/-- C5: Cli.js's own option text declares "Default is NBA*" and commander
fills in the default value `"NBA*"`, yet its `switch` has no `"NBA*"`
branch: a run without `--algorithm` resolves locations and then exits via
`default: process.exit()` without constructing any engine or computing a
path, while TilePlanner.js does construct the NBAStar engine for the same
default. -/
theorem c5_code_bug_eval :
    cliOptsDefault.algorithm = "NBA*".toList ∧
    TilePlanner.selectEngine "NBA*".toList = some EngineKind.nbastar ∧
    Cli.selectEngine "NBA*".toList = none ∧
    Cli.run cliEnvOk cliOptsDefault = ([Event.resolveLocations], Outcome.exited) ∧
    Event.engineConstructed EngineKind.nbastar ∉ (Cli.run cliEnvOk cliOptsDefault).1 ∧
    Event.ranFindPath ∉ (Cli.run cliEnvOk cliOptsDefault).1 := by decide

/-- C6 fails as stated: Cli.js resolves identifiers remotely with
path-style requests `{tiles}/location/{id}`, not the claimed
`{tiles}/location?id={id}`. -/
theorem c6_counterexample :
    Cli.locationURL "http://h".toList "A".toList ≠
      specLocationURL "http://h".toList "A".toList ∧
    Cli.locationURL "http://h".toList "A".toList = "http://h/location/A".toList := by
  decide

/-- C6 amended: TilePlanner.js issues `GET {tiles}/location?id={id}` with
the identifier percent-encoded, exactly the specified shape; Cli.js's
remote branch issues `GET {tiles}/location/{id}` instead (identifier
likewise percent-encoded). -/
theorem c6_amended_location_url (tiles id : List Char) :
    TilePlanner.locationURL tiles id = specLocationURL tiles id ∧
    Cli.locationURL tiles id = tiles ++ "/location/".toList ++ encodeURIComponent id ∧
    TilePlanner.locationURL "http://h".toList "a b".toList =
      "http://h/location?id=a%20b".toList :=
  ⟨rfl, rfl, by decide⟩

/-- C1 fails as stated: on a well-formed graph whose forward and backward
heuristics are admissible and consistent (as geographic distances are when
edge weights are geographic distances), Dijkstra and A* both return total
cost 42, but NBA* with the specified termination rule (stop as soon as
`forwardTop.priority + backwardTop.priority ≥ bestMeetingCost`) stops on
the early meeting through the bypass node and returns total cost 50. -/
theorem c1_counterexample :
    exGraph.WF ∧ Consistent exGraph exHF ∧ ConsistentRev exGraph exHB ∧
    exHF 5 = 0 ∧ exHB 0 = 0 ∧
    (Dijkstra.findPath exGraph 0 5).map PathResult.totalCost = some 42 ∧
    (AStar.findPath exGraph exHF 0 5).map PathResult.totalCost = some 42 ∧
    (NBAStar.findPath exGraph exHF exHB 0 5).map PathResult.totalCost = some 50 ∧
    (NBAStar.findPath exGraph exHF exHB 0 5).map PathResult.totalCost ≠
      (Dijkstra.findPath exGraph 0 5).map PathResult.totalCost := by
  decide

/-- C1 amended: on every well-formed graph with a consistent (hence, with
the zero endpoint value, admissible) heuristic, the Dijkstra and A*
engines return paths of identical total cost for the same
origin/destination — including agreeing on the no-path verdict; the NBA*
engine as specified may stop early with a costlier path. -/
theorem c1_amended_dijkstra_astar_cost_eq {α : Type} [LinearOrderedCancelAddCommMonoid α]
    (G : SGraph α) (heuristic : Nat → α) (s t : Nat)
    (hwf : G.WF) (hs : s ∈ G.nodes) (hcons : Consistent G heuristic) :
    (Dijkstra.findPath G s t).map PathResult.totalCost =
      (AStar.findPath G heuristic s t).map PathResult.totalCost :=
  genSearch_cost_eq hwf hs (consistent_zero hwf) hcons

/-- Witness for the amended C1 at the concrete geographic instance. -/
theorem c1_amended_witness :
    (exGraph.WF ∧ (0 : Nat) ∈ exGraph.nodes ∧ Consistent exGraph exHF) ∧
    (Dijkstra.findPath exGraph 0 5).map PathResult.totalCost =
      (AStar.findPath exGraph exHF 0 5).map PathResult.totalCost :=
  ⟨⟨by decide, by decide, by decide⟩,
    c1_amended_dijkstra_astar_cost_eq exGraph exHF 0 5 (by decide) (by decide) (by decide)⟩

/-- C3 fails as stated: with the engine reporting no path, Cli.js does not
handle the absent result as a valid negative result — `path.map` on the
absent value throws an uncaught TypeError instead of reporting "no path". -/
theorem c3_counterexample :
    Cli.run cliEnvNoPath cliOptsDijkstra =
      ([Event.resolveLocations, Event.engineConstructed EngineKind.dijkstra,
        Event.ranFindPath], Outcome.crashTypeError) ∧
    Outcome.crashTypeError ≠ Outcome.printedNoPath := by decide

/-- C3 amended: `findPath` returns either a `PathResult` — whose node
sequence really is a path from origin to destination costing the stated
total — or an absent value; TilePlanner.js handles the absent value as a
valid negative result (prints "No path was found :(" and ends normally),
while Cli.js fails on it with an uncaught TypeError. -/
theorem c3_amended_absent_handling (G : SGraph ℤ) (h : Nat → ℤ) (s t : Nat)
    (hwf : G.WF) (hs : s ∈ G.nodes) (hcons : Consistent G h) :
    (∀ r, genSearch G h s t = some r → IsPath G s t r.path r.totalCost) ∧
    TilePlanner.reportResult none = Outcome.printedNoPath ∧
    Cli.reportResult none = Outcome.crashTypeError :=
  ⟨fun _ hr => (genSearch_some hwf hcons hs hr).1, rfl, rfl⟩

/-- Witness for the amended C3 at the concrete geographic instance. -/
theorem c3_amended_witness :
    (exGraph.WF ∧ (0 : Nat) ∈ exGraph.nodes ∧ Consistent exGraph exHF) ∧
    ((∀ r, genSearch exGraph exHF 0 5 = some r → IsPath exGraph 0 5 r.path r.totalCost) ∧
      TilePlanner.reportResult none = Outcome.printedNoPath ∧
      Cli.reportResult none = Outcome.crashTypeError) :=
  ⟨⟨by decide, by decide, by decide⟩,
    c3_amended_absent_handling exGraph exHF 0 5 (by decide) (by decide) (by decide)⟩

/-- C8: `findPath` is deterministic — any engine, run twice on the same
graph, heuristics and endpoints (the same tile source), returns the same
path and cost. -/
theorem c8_findPath_deterministic {α : Type} [LinearOrderedCancelAddCommMonoid α]
    (k : EngineKind) (G : SGraph α) (hf hb : Nat → α) (s t : Nat)
    (r₁ r₂ : Option (PathResult α))
    (h₁ : runEngine k G hf hb s t = r₁) (h₂ : runEngine k G hf hb s t = r₂) :
    r₁ = r₂ := by
  rw [← h₁, ← h₂]

/-- Witness for C8: two evaluations of the Dijkstra engine on the
concrete instance agree. -/
theorem c8_witness :
    runEngine EngineKind.dijkstra exGraph exHF exHB 0 5 =
      some ⟨42, [0, 1, 2, 3, 5]⟩ ∧
    (some ⟨42, [0, 1, 2, 3, 5]⟩ : Option (PathResult ℤ)) =
      some ⟨42, [0, 1, 2, 3, 5]⟩ :=
  ⟨by decide,
    c8_findPath_deterministic EngineKind.dijkstra exGraph exHF exHB 0 5 _ _
      (by decide) (by decide)⟩

/-- Shape analysis of `TilePlanner.run`: the run either exits on the url
check, stops right after location resolution with an uncaught TypeError
(decode failure or unrecognized algorithm), or runs the full pipeline —
which requires a selected engine and both geometries decoded. -/
theorem tp_run_shape (env : TilePlanner.Env) (o : TilePlanner.Opts) :
    TilePlanner.run env o = ([Event.urlError], Outcome.exited) ∨
    ((TilePlanner.run env o).1 = [Event.resolveLocations] ∧
      (TilePlanner.run env o).2 = Outcome.crashTypeError) ∨
    (∃ k, TilePlanner.selectEngine o.algorithm = some k ∧
      TilePlanner.decodeWkt env (env.fetchJson
        (TilePlanner.locationURL (tilesNormalize o.tiles) o.fromId)) ≠ none ∧
      TilePlanner.decodeWkt env (env.fetchJson
        (TilePlanner.locationURL (tilesNormalize o.tiles) o.toId)) ≠ none ∧
      TilePlanner.run env o =
        ([Event.resolveLocations, Event.engineConstructed k, Event.loadQuadTree,
          Event.ranFindPath], TilePlanner.reportResult env.findPathResult)) := by
  unfold TilePlanner.run
  cases hu : env.urlValid with
  | false => left; rfl
  | true =>
    dsimp only [Bool.not_true]
    rw [if_neg (by simp)]
    cases hF : TilePlanner.decodeWkt env (env.fetchJson
        (TilePlanner.locationURL (tilesNormalize o.tiles) o.fromId)) with
    | none => right; left; exact ⟨rfl, rfl⟩
    | some cF =>
      cases hT : TilePlanner.decodeWkt env (env.fetchJson
          (TilePlanner.locationURL (tilesNormalize o.tiles) o.toId)) with
      | none => right; left; exact ⟨rfl, rfl⟩
      | some cT =>
        cases TilePlanner.selectEngine o.algorithm with
        | none => right; left; exact ⟨rfl, rfl⟩
        | some k =>
          right; right
          exact ⟨k, rfl, by simp, by simp, rfl⟩

/-- Shape analysis of `Cli.run`: the run either exits on the url check,
stops right after location resolution (index failure or unrecognized
algorithm exit, or decode TypeError), or runs the full pipeline — which
requires a selected engine and both locations resolved and decoded. -/
theorem cli_run_shape (env : Cli.Env) (o : Cli.Opts) :
    Cli.run env o = ([Event.urlError], Outcome.exited) ∨
    ((Cli.run env o).1 = [Event.resolveLocations] ∧
      ((Cli.run env o).2 = Outcome.crashTypeError ∨ (Cli.run env o).2 = Outcome.exited)) ∨
    (∃ k mF mT, Cli.selectEngine o.algorithm = some k ∧
      Cli.locate env (tilesNormalize o.tiles) o = some (mF, mT) ∧
      Cli.coordsOf env mF ≠ none ∧ Cli.coordsOf env mT ≠ none ∧
      Cli.run env o =
        ([Event.resolveLocations, Event.engineConstructed k, Event.ranFindPath],
          Cli.reportResult env.findPathResult)) := by
  unfold Cli.run
  cases hu : env.urlValid with
  | false => left; rfl
  | true =>
    dsimp only [Bool.not_true]
    rw [if_neg (by simp)]
    cases hloc : Cli.locate env (tilesNormalize o.tiles) o with
    | none => right; left; exact ⟨rfl, Or.inr rfl⟩
    | some mm =>
      obtain ⟨mF, mT⟩ := mm
      dsimp only
      cases hcF : Cli.coordsOf env mF with
      | none => right; left; exact ⟨rfl, Or.inl rfl⟩
      | some cF =>
        cases hcT : Cli.coordsOf env mT with
        | none => right; left; exact ⟨rfl, Or.inl rfl⟩
        | some cT =>
          cases Cli.selectEngine o.algorithm with
          | none => right; left; exact ⟨rfl, Or.inr rfl⟩
          | some k =>
            right; right
            exact ⟨k, mF, mT, rfl, rfl, by simp [hcF], by simp [hcT], rfl⟩

/-- C4 fails as stated: with a valid tiles URL and the unrecognized
algorithm name "Foo", TilePlanner.js resolves both locations first and
only then dies — with an uncaught TypeError on the null engine, not a
reported ConfigurationError — so termination does not precede location
resolution. -/
theorem c4_counterexample :
    TilePlanner.selectEngine tpOptsFoo.algorithm = none ∧
    TilePlanner.run tpEnvOk tpOptsFoo = ([Event.resolveLocations], Outcome.crashTypeError) ∧
    Event.resolveLocations ∈ (TilePlanner.run tpEnvOk tpOptsFoo).1 := by decide

/-- C4 amended: an invalid tile base URL is reported and terminates both
entry points before any location resolution; an unrecognized algorithm
name terminates both entry points before any search, but only after
location resolution (TilePlanner.js crashes on the null engine, Cli.js
exits). -/
theorem c4_amended_config_errors (envT : TilePlanner.Env) (oT : TilePlanner.Opts)
    (envC : Cli.Env) (oC : Cli.Opts) :
    (envT.urlValid = false → TilePlanner.run envT oT = ([Event.urlError], Outcome.exited)) ∧
    (envC.urlValid = false → Cli.run envC oC = ([Event.urlError], Outcome.exited)) ∧
    (TilePlanner.selectEngine oT.algorithm = none →
      Event.ranFindPath ∉ (TilePlanner.run envT oT).1) ∧
    (Cli.selectEngine oC.algorithm = none →
      Event.ranFindPath ∉ (Cli.run envC oC).1) := by
  refine ⟨?_, ?_, ?_, ?_⟩
  · intro h
    unfold TilePlanner.run
    rw [h]
    rfl
  · intro h
    unfold Cli.run
    rw [h]
    rfl
  · intro hsel
    rcases tp_run_shape envT oT with h | ⟨h1, _⟩ | ⟨k, hk, _, _, _⟩
    · rw [h]; decide
    · rw [h1]; decide
    · exact Option.noConfusion (hk.symm.trans hsel)
  · intro hsel
    rcases cli_run_shape envC oC with h | ⟨h1, _⟩ | ⟨k, mF, mT, hk, _, _, _, _⟩
    · rw [h]; decide
    · rw [h1]; decide
    · exact Option.noConfusion (hk.symm.trans hsel)

/-- Witness for the amended C4: an invalid URL exits before resolution. -/
theorem c4_amended_witness :
    tpEnvBadUrl.urlValid = false ∧
    TilePlanner.run tpEnvBadUrl tpOptsFoo = ([Event.urlError], Outcome.exited) :=
  ⟨by decide,
    (c4_amended_config_errors tpEnvBadUrl tpOptsFoo cliEnvOk cliOptsDefault).1 (by decide)⟩

/-- C7 fails as stated: with a local index missing the origin identifier,
Cli.js aborts before the search — but with an uncaught TypeError on
`undefined.wkt` that names no identifier, not with a reported
LocationResolutionError surfacing which identifier failed. -/
theorem c7_counterexample :
    Cli.run cliEnvIndexMissing cliOptsIndexed =
      ([Event.resolveLocations], Outcome.crashTypeError) ∧
    Outcome.surfacesId (Cli.run cliEnvIndexMissing cliOptsIndexed).2 = false ∧
    Event.ranFindPath ∉ (Cli.run cliEnvIndexMissing cliOptsIndexed).1 := by decide

/-- C7 amended: whenever an origin or destination fails to resolve — the
geometry is missing or undecodable in TilePlanner.js; the index file fails
to load, an identifier is absent from it, or a geometry is undecodable in
Cli.js — the program does abort before any search begins, but via an
uncaught type error or a bare exit that never surfaces which identifier
failed. -/
theorem c7_amended_abort_before_search (envT : TilePlanner.Env) (oT : TilePlanner.Opts)
    (envC : Cli.Env) (oC : Cli.Opts) :
    ((TilePlanner.decodeWkt envT (envT.fetchJson
        (TilePlanner.locationURL (tilesNormalize oT.tiles) oT.fromId)) = none ∨
      TilePlanner.decodeWkt envT (envT.fetchJson
        (TilePlanner.locationURL (tilesNormalize oT.tiles) oT.toId)) = none) →
      Event.ranFindPath ∉ (TilePlanner.run envT oT).1 ∧
      Outcome.surfacesId (TilePlanner.run envT oT).2 = false) ∧
    (∀ mF mT, Cli.locate envC (tilesNormalize oC.tiles) oC = some (mF, mT) →
      (Cli.coordsOf envC mF = none ∨ Cli.coordsOf envC mT = none) →
      Event.ranFindPath ∉ (Cli.run envC oC).1 ∧
      Outcome.surfacesId (Cli.run envC oC).2 = false) ∧
    (Cli.locate envC (tilesNormalize oC.tiles) oC = none →
      Event.ranFindPath ∉ (Cli.run envC oC).1 ∧
      Outcome.surfacesId (Cli.run envC oC).2 = false) := by
  refine ⟨?_, ?_, ?_⟩
  · intro hdec
    rcases tp_run_shape envT oT with h | ⟨h1, h2⟩ | ⟨k, _, hF, hT, _⟩
    · rw [h]
      exact ⟨by decide, by decide⟩
    · rw [h1, h2]
      exact ⟨by decide, by decide⟩
    · rcases hdec with hd | hd
      · exact absurd hd hF
      · exact absurd hd hT
  · intro mF mT hloc hdec
    rcases cli_run_shape envC oC with h | ⟨h1, h2⟩ | ⟨k, mF', mT', hk, hloc', hcF, hcT, _⟩
    · rw [h]
      exact ⟨by decide, by decide⟩
    · refine ⟨by rw [h1]; decide, ?_⟩
      rcases h2 with h2 | h2 <;> rw [h2] <;> decide
    · have heq := hloc.symm.trans hloc'
      simp only [Option.some.injEq, Prod.mk.injEq] at heq
      obtain ⟨rfl, rfl⟩ := heq
      rcases hdec with hd | hd
      · exact absurd hd hcF
      · exact absurd hd hcT
  · intro hloc
    rcases cli_run_shape envC oC with h | ⟨h1, h2⟩ | ⟨k, mF', mT', hk, hloc', hcF, hcT, _⟩
    · rw [h]
      exact ⟨by decide, by decide⟩
    · refine ⟨by rw [h1]; decide, ?_⟩
      rcases h2 with h2 | h2 <;> rw [h2] <;> decide
    · exact Option.noConfusion (hloc.symm.trans hloc')

/-- Witness for the amended C7: the missing-identifier index scenario
aborts before search without surfacing the identifier. -/
theorem c7_amended_witness :
    (Cli.locate cliEnvIndexMissing (tilesNormalize cliOptsIndexed.tiles) cliOptsIndexed =
        some (none, some okLoc) ∧
      Cli.coordsOf cliEnvIndexMissing none = none) ∧
    (Event.ranFindPath ∉ (Cli.run cliEnvIndexMissing cliOptsIndexed).1 ∧
      Outcome.surfacesId (Cli.run cliEnvIndexMissing cliOptsIndexed).2 = false) :=
  ⟨⟨by decide, by decide⟩,
    (c7_amended_abort_before_search tpEnvOk tpOptsDefault cliEnvIndexMissing
        cliOptsIndexed).2.1 none (some okLoc) (by decide) (Or.inl (by decide))⟩

end TSP
